import Mathlib

/-!
# Souvenir: memoization utilities, shallow embedding

Verification of the `souvenir` crate (files `src/memory.rs` and
`src/recall.rs`).  The crate offers two single-threaded memoization
primitives:

* `Memory<T, TIn, TOut>` holds a cache-miss closure `remember : T` (with
  `T : FnMut(&TIn) -> TOut`) together with a `HashMap<TIn, TOut>` named
  `values`; `Memory::resolve` looks the input up by equality, returns a
  clone of the cached output on a hit, and on a miss invokes the closure,
  inserts a clone of the input and result, and returns the result.
* `Recall<T, TOut>` holds a zero-argument closure `evaluator : T` (with
  `T : FnMut() -> TOut`) and a slot `value : Option<TOut>`;
  `Recall::value` returns a clone of the slot when occupied, and otherwise
  invokes the closure, stores a clone of the result, and returns it.

Embedding conventions:

* Rust `FnMut` closures carry hidden mutable captured state.  We embed
  a closure as a pure function `S → ... → S × TOut` over an explicit
  captured-state type `S`, threaded through every invocation.  External
  side effects of the closure (e.g. an invocation counter in the tests)
  live in `S`.
* `Clone::clone` produces a value equal to the original, which is all the
  specification relies on, so duplication is the identity here.
* `HashMap<TIn, TOut>` is modelled as an association list with unique
  keys, equality-based `lookup` and replace-or-append `insert`; the
  specification declares insertion order irrelevant.
* Each operation additionally returns the number of times it invoked the
  wrapped closure during that call (`0` or `1`); this instrumentation
  only observes the call in the source, it does not alter behaviour.
-/

namespace Souvenir

/-- Equality-based lookup in an association list; embeds `HashMap::get`
(the map's keys are compared with `Eq`). -/
def lookup {TIn TOut : Type} [DecidableEq TIn] : List (TIn × TOut) → TIn → Option TOut
  | [], _ => none
  | (k, v) :: rest, key => if key = k then some v else lookup rest key

/-- Equality-based insert in an association list; embeds `HashMap::insert`
(replaces the value when the key is present, appends otherwise). -/
def insert {TIn TOut : Type} [DecidableEq TIn] : List (TIn × TOut) → TIn → TOut → List (TIn × TOut)
  | [], key, val => [(key, val)]
  | (k, v) :: rest, key, val =>
      if key = k then (key, val) :: rest else (k, v) :: insert rest key val

/-- `Memory<T, TIn, TOut>` from `src/memory.rs`: the cache-miss closure
`remember` (split into its pure function and its captured state `state : S`)
and the cache `values`. -/
structure Memory (S TIn TOut : Type) where
  remember : S → TIn → S × TOut
  state : S
  values : List (TIn × TOut)

/-- `Memory::new`: store the closure, start with an empty cache. -/
def Memory.new {S TIn TOut : Type} (remember : S → TIn → S × TOut) (s : S) :
    Memory S TIn TOut :=
  ⟨remember, s, []⟩

/-- `Memory::resolve`: on a hit return the cached value and leave the
structure untouched; on a miss invoke `remember`, insert, and return the
result.  The final component counts invocations of `remember` during the
call. -/
def Memory.resolve {S TIn TOut : Type} [DecidableEq TIn]
    (m : Memory S TIn TOut) (input : TIn) : TOut × Memory S TIn TOut × Nat :=
  match lookup m.values input with
  | some value => (value, m, 0)
  | none =>
      let sr := m.remember m.state input
      (sr.2, { m with state := sr.1, values := insert m.values input sr.2 }, 1)

/-- Resolve a whole sequence of inputs, keeping the final state. -/
def Memory.runSeq {S TIn TOut : Type} [DecidableEq TIn]
    (m : Memory S TIn TOut) : List TIn → Memory S TIn TOut
  | [] => m
  | i :: rest => ((m.resolve i).2.1).runSeq rest

/-- Total number of `remember` invocations over a sequence of resolves. -/
def Memory.missCount {S TIn TOut : Type} [DecidableEq TIn]
    (m : Memory S TIn TOut) : List TIn → Nat
  | [] => 0
  | i :: rest => (m.resolve i).2.2 + ((m.resolve i).2.1).missCount rest

/-- Number of `remember` invocations over a sequence of resolves charged to
the steps whose input equals `k`. -/
def Memory.callsFor {S TIn TOut : Type} [DecidableEq TIn]
    (m : Memory S TIn TOut) (k : TIn) : List TIn → Nat
  | [] => 0
  | i :: rest =>
      (if i = k then (m.resolve i).2.2 else 0) + ((m.resolve i).2.1).callsFor k rest

/-- `Recall<T, TOut>` from `src/recall.rs`: the lazy closure `evaluator`
(split into its pure function and its captured state) and the slot
`value`. -/
structure Recall (S TOut : Type) where
  evaluator : S → S × TOut
  state : S
  value : Option TOut

/-- `Recall::new`: store the closure, slot starts empty. -/
def Recall.new {S TOut : Type} (evaluator : S → S × TOut) (s : S) : Recall S TOut :=
  ⟨evaluator, s, none⟩

/-- `Recall::value`: return the slot when occupied; otherwise invoke the
closure, store the result, return it.  (Named `value'` because `value` is
the structure field, as in the source.)  The final component counts
invocations of `evaluator` during the call. -/
def Recall.value' {S TOut : Type} (r : Recall S TOut) : TOut × Recall S TOut × Nat :=
  match r.value with
  | some v => (v, r, 0)
  | none =>
      let sv := r.evaluator r.state
      (sv.2, { r with state := sv.1, value := some sv.2 }, 1)

/-- Call `Recall::value` a number of times in a row; final state and the
total number of `evaluator` invocations. -/
def Recall.iterate {S TOut : Type} (r : Recall S TOut) : Nat → Recall S TOut × Nat
  | 0 => (r, 0)
  | n + 1 =>
      let step := r.value'
      let rest := step.2.1.iterate n
      (rest.1, step.2.2 + rest.2)

/-!
Fallible variants.  The crate's closures return `TOut` directly, so the
only failure mode is a Rust panic inside the user-supplied closure, which
unwinds out of `resolve`/`value` before any store happens (the `insert`
and the slot assignment are textually after the closure call).  To reason
about that control flow we let the closure's result be `Except E TOut`;
the closure's captured state is still updated (a panicking closure may
have mutated its captures first), but the cache/slot is touched only on
success, exactly as unwinding leaves it in the source.
-/

/-- `Memory` whose closure may fail; embeds `Memory::resolve` under a
panicking `remember`. -/
structure MemoryE (E S TIn TOut : Type) where
  remember : S → TIn → S × Except E TOut
  state : S
  values : List (TIn × TOut)

/-- `Memory::resolve` with a fallible closure: a failure propagates and
nothing is inserted into the cache. -/
def MemoryE.resolve {E S TIn TOut : Type} [DecidableEq TIn]
    (m : MemoryE E S TIn TOut) (input : TIn) :
    Except E TOut × MemoryE E S TIn TOut × Nat :=
  match lookup m.values input with
  | some value => (.ok value, m, 0)
  | none =>
      let sr := m.remember m.state input
      match sr.2 with
      | .error e => (.error e, { m with state := sr.1 }, 1)
      | .ok v => (.ok v, { m with state := sr.1, values := insert m.values input v }, 1)

/-- `Recall` whose closure may fail; embeds `Recall::value` under a
panicking `evaluator`. -/
structure RecallE (E S TOut : Type) where
  evaluator : S → S × Except E TOut
  state : S
  value : Option TOut

/-- `Recall::value` with a fallible closure: a failure propagates and the
slot stays empty. -/
def RecallE.value' {E S TOut : Type} (r : RecallE E S TOut) :
    Except E TOut × RecallE E S TOut × Nat :=
  match r.value with
  | some v => (.ok v, r, 0)
  | none =>
      let sv := r.evaluator r.state
      match sv.2 with
      | .error e => (.error e, { r with state := sv.1 }, 1)
      | .ok v => (.ok v, { r with state := sv.1, value := some v }, 1)

/-!
Concrete instances used to evaluate the development on closed inputs,
mirroring the closures in the unit tests of the crate: the captured state
is a `Nat` counter incremented on every true invocation.
-/

/-- Counting doubler, empty cache (test `it_only_runs_once`). -/
def cdoubler : Memory Nat Nat Nat := Memory.new (fun s k => (s + 1, k * 2)) 0

/-- Counting doubler whose cache already holds the entry `(2, 4)`. -/
def cprimed : Memory Nat Nat Nat := ⟨fun s k => (s + 1, k * 2), 0, [(2, 4)]⟩

/-- Stateful closure returning `k + s`: a fresh invocation at a later
counter state would return a different value for the same key. -/
def cStateful : Memory Nat Nat Nat := Memory.new (fun s k => (s + 1, k + s)) 0

/-- Counting constant-42 lazy cell (test `it_only_runs_once`). -/
def cRecall : Recall Nat Nat := Recall.new (fun s => (s + 1, 42)) 0

/-- Lazy cell whose slot is already occupied by 42. -/
def cOccupied : Recall Nat Nat := ⟨fun s => (s + 1, 7), 0, some 42⟩

/-- Memoizer whose closure always fails. -/
def cMemE : MemoryE Unit Nat Nat Nat := ⟨fun s _ => (s + 1, Except.error ()), 0, []⟩

/-- Lazy cell whose closure always fails. -/
def cRecE : RecallE Unit Nat Nat := ⟨fun s => (s + 1, Except.error ()), 0, none⟩

end Souvenir

namespace Souvenir

-- sanity checks mirroring the crate's unit tests
example : ((Memory.new (fun (s : Nat) (k : Nat) => (s + 1, k * 2)) 0).resolve 2).1 = 4 := by
  decide

example :
    (((Memory.new (fun (s : Nat) (k : Nat) => (s + 1, k * 2)) 0).resolve 2).2.1.resolve 2).1 = 4 := by
  decide

example :
    ((Memory.new (fun (s : Nat) (k : Nat) => (s + 1, k * 2)) 0).missCount [2, 2, 3]) = 2 := by
  decide

example : ((Recall.new (fun (s : Nat) => (s + 1, 42)) 0).iterate 3).2 = 1 := by
  decide

example : ((Recall.new (fun (s : Nat) => (s + 1, 42)) 0).value').1 = 42 := by
  decide

/-! ## Helper lemmas about the association-list cache -/

theorem lookup_insert_self {TIn TOut : Type} [DecidableEq TIn]
    (l : List (TIn × TOut)) (k : TIn) (v : TOut) :
    lookup (insert l k v) k = some v := by
  induction l with
  | nil => simp [insert, lookup]
  | cons hd tl ih =>
      obtain ⟨k0, v0⟩ := hd
      by_cases h : k = k0
      · simp [insert, lookup, h]
      · simp [insert, lookup, h, ih]

theorem lookup_insert_ne {TIn TOut : Type} [DecidableEq TIn]
    (l : List (TIn × TOut)) (k i : TIn) (v : TOut) (h : k ≠ i) :
    lookup (insert l i v) k = lookup l k := by
  induction l with
  | nil => simp [insert, lookup, h]
  | cons hd tl ih =>
      obtain ⟨k0, v0⟩ := hd
      by_cases h0 : i = k0
      · subst h0
        simp [insert, lookup, h]
      · simp [insert, lookup, h0, ih]

theorem length_insert_of_lookup_none {TIn TOut : Type} [DecidableEq TIn]
    (l : List (TIn × TOut)) (k : TIn) (v : TOut) (h : lookup l k = none) :
    (insert l k v).length = l.length + 1 := by
  induction l with
  | nil => simp [insert]
  | cons hd tl ih =>
      obtain ⟨k0, v0⟩ := hd
      by_cases h0 : k = k0
      · simp [lookup, h0] at h
      · simp only [lookup, if_neg h0] at h
        simp [insert, h0, ih h]

/-! ## Helper lemmas about `Memory.resolve` -/

theorem resolve_hit {S TIn TOut : Type} [DecidableEq TIn]
    (m : Memory S TIn TOut) (k : TIn) (v : TOut) (h : lookup m.values k = some v) :
    m.resolve k = (v, m, 0) := by
  simp [Memory.resolve, h]

theorem resolve_miss {S TIn TOut : Type} [DecidableEq TIn]
    (m : Memory S TIn TOut) (k : TIn) (h : lookup m.values k = none) :
    m.resolve k = ((m.remember m.state k).2,
      { m with state := (m.remember m.state k).1,
               values := insert m.values k (m.remember m.state k).2 }, 1) := by
  simp [Memory.resolve, h]

theorem lookup_after_resolve {S TIn TOut : Type} [DecidableEq TIn]
    (m : Memory S TIn TOut) (k : TIn) :
    lookup ((m.resolve k).2.1).values k = some ((m.resolve k).1) := by
  cases h : lookup m.values k with
  | some v => simp [resolve_hit m k v h, h]
  | none => simp [resolve_miss m k h, lookup_insert_self]

theorem lookup_resolve_preserved {S TIn TOut : Type} [DecidableEq TIn]
    (m : Memory S TIn TOut) (k i : TIn) (v : TOut) (h : lookup m.values k = some v) :
    lookup ((m.resolve i).2.1).values k = some v := by
  cases hi : lookup m.values i with
  | some w => simp [resolve_hit m i w hi, h]
  | none =>
      have hk : k ≠ i := by
        intro he
        subst he
        rw [h] at hi
        exact Option.noConfusion hi
      simp [resolve_miss m i hi, lookup_insert_ne _ _ _ _ hk, h]

theorem lookup_runSeq_preserved {S TIn TOut : Type} [DecidableEq TIn]
    (m : Memory S TIn TOut) (k : TIn) (v : TOut) (l : List TIn)
    (h : lookup m.values k = some v) :
    lookup ((m.runSeq l).values) k = some v := by
  induction l generalizing m with
  | nil => simpa [Memory.runSeq] using h
  | cons i rest ih =>
      simp only [Memory.runSeq]
      exact ih _ (lookup_resolve_preserved m k i v h)

theorem resolve_count_eq_zero_iff {S TIn TOut : Type} [DecidableEq TIn]
    (m : Memory S TIn TOut) (k : TIn) :
    (m.resolve k).2.2 = 0 ↔ (lookup m.values k).isSome := by
  cases h : lookup m.values k with
  | some v => simp [resolve_hit m k v h]
  | none => simp [resolve_miss m k h]

theorem lookup_after_resolve_cases {S TIn TOut : Type} [DecidableEq TIn]
    (m : Memory S TIn TOut) (k1 k2 : TIn) :
    (lookup ((m.resolve k1).2.1).values k2).isSome ↔
      (k2 = k1 ∨ (lookup m.values k2).isSome) := by
  by_cases hk : k2 = k1
  · subst hk
    simp [lookup_after_resolve m k2]
  · cases h1 : lookup m.values k1 with
    | some v => simp [resolve_hit m k1 v h1, hk]
    | none => simp [resolve_miss m k1 h1, lookup_insert_ne _ _ _ _ hk, hk]

/-! ## Helper lemmas about `Recall.value` -/

theorem value_of_occupied {S TOut : Type} (r : Recall S TOut) (v : TOut)
    (h : r.value = some v) : r.value' = (v, r, 0) := by
  simp [Recall.value', h]

theorem slot_after_value {S TOut : Type} (r : Recall S TOut) :
    ((r.value').2.1).value = some ((r.value').1) := by
  cases h : r.value with
  | some v => simp [Recall.value', h]
  | none => simp [Recall.value', h]

theorem iterate_no_calls_of_occupied {S TOut : Type} (r : Recall S TOut) (v : TOut)
    (h : r.value = some v) (n : Nat) : (r.iterate n).2 = 0 := by
  induction n generalizing r with
  | zero => simp [Recall.iterate]
  | succ n ih =>
      simp [Recall.iterate, value_of_occupied r v h, ih r h]

/-! ## Helper lemmas about the fallible variants -/

theorem resolveE_count_of_miss {E S TIn TOut : Type} [DecidableEq TIn]
    (m : MemoryE E S TIn TOut) (k : TIn) (h : lookup m.values k = none) :
    (m.resolve k).2.2 = 1 := by
  simp only [MemoryE.resolve, h]
  cases hr : (m.remember m.state k).2 with
  | error e => simp [hr]
  | ok v => simp [hr]

theorem valueE_count_of_empty {E S TOut : Type} (r : RecallE E S TOut)
    (h : r.value = none) : (r.value').2.2 = 1 := by
  simp only [RecallE.value', h]
  cases hr : (r.evaluator r.state).2 with
  | error e => simp [hr]
  | ok v => simp [hr]

/-! ## Claim theorems -/

/-- C1: once the cache of a `Memory` holds an entry for key `k`, no later
sequence of `resolve` calls, however long, ever invokes the `remember`
closure again for a key equal to `k`. -/
theorem resolve_never_recomputes_cached_key {S TIn TOut : Type} [DecidableEq TIn]
    (m : Memory S TIn TOut) (k : TIn) (v : TOut) (l : List TIn)
    (h : lookup m.values k = some v) :
    m.callsFor k l = 0 := by
  induction l generalizing m v with
  | nil => simp [Memory.callsFor]
  | cons i rest ih =>
      simp only [Memory.callsFor]
      have hrest := ih _ _ (lookup_resolve_preserved m k i v h)
      by_cases hik : i = k
      · subst hik
        rw [resolve_hit m i v h] at hrest ⊢
        simpa using hrest
      · simpa [hik] using hrest

theorem resolve_never_recomputes_cached_key_witness :
    lookup cprimed.values 2 = some 4 ∧ cprimed.callsFor 2 [2, 2, 3] = 0 :=
  ⟨by decide, resolve_never_recomputes_cached_key cprimed 2 4 [2, 2, 3] (by decide)⟩

/-- C2: for a `Recall` built by `new`, the `evaluator` closure runs at most
once over any number of `value` calls, and any call that finds the slot
occupied returns the stored value without invoking the closure. -/
theorem recall_at_most_once {S TOut : Type} (f : S → S × TOut) (s : S) (n : Nat) :
    ((Recall.new f s).iterate n).2 ≤ 1 ∧
      ∀ (r : Recall S TOut) (v : TOut), r.value = some v → r.value' = (v, r, 0) := by
  refine ⟨?_, fun r v h => value_of_occupied r v h⟩
  cases n with
  | zero => simp [Recall.iterate]
  | succ n =>
      have hslot := slot_after_value (Recall.new f s)
      have h0 := iterate_no_calls_of_occupied _ _ hslot n
      simp only [Recall.iterate, h0]
      simp [Recall.new, Recall.value']

theorem recall_at_most_once_witness :
    ((Recall.new (fun (s : Nat) => (s + 1, 42)) 0).iterate 3).2 ≤ 1 ∧
      cOccupied.value' = (42, cOccupied, 0) :=
  ⟨(recall_at_most_once (fun (s : Nat) => (s + 1, 42)) 0 3).1,
   (recall_at_most_once (fun (s : Nat) => (s + 1, 42)) 0 3).2 cOccupied 42 (by decide)⟩

/-- C3: on a cache miss, `resolve` invokes the closure exactly once on the
input, threads the closure state, inserts the input and the result into
the cache, and returns the result; afterwards the cache maps the key to
the returned result. -/
theorem resolve_miss_inserts {S TIn TOut : Type} [DecidableEq TIn]
    (m : Memory S TIn TOut) (k : TIn) (h : lookup m.values k = none) :
    m.resolve k = ((m.remember m.state k).2,
      { m with state := (m.remember m.state k).1,
               values := insert m.values k (m.remember m.state k).2 }, 1) ∧
      lookup ((m.resolve k).2.1).values k = some ((m.resolve k).1) :=
  ⟨resolve_miss m k h, lookup_after_resolve m k⟩

theorem resolve_miss_inserts_witness :
    cdoubler.resolve 2 = ((cdoubler.remember cdoubler.state 2).2,
      { cdoubler with state := (cdoubler.remember cdoubler.state 2).1,
                      values := insert cdoubler.values 2 (cdoubler.remember cdoubler.state 2).2 }, 1) ∧
      lookup ((cdoubler.resolve 2).2.1).values 2 = some ((cdoubler.resolve 2).1) :=
  resolve_miss_inserts cdoubler 2 (by decide)

/-- C4: on a cache hit, `resolve` returns the cached output and leaves the
whole structure (cache and closure state) unchanged, invoking nothing;
and over any call sequence the cache gains exactly one entry per miss and
none per hit, so its size grows by exactly the miss count. -/
theorem resolve_hit_frame {S TIn TOut : Type} [DecidableEq TIn] :
    (∀ (m : Memory S TIn TOut) (k : TIn) (v : TOut),
        lookup m.values k = some v → m.resolve k = (v, m, 0)) ∧
    (∀ (m : Memory S TIn TOut) (l : List TIn),
        ((m.runSeq l).values).length = m.values.length + m.missCount l) := by
  refine ⟨fun m k v h => resolve_hit m k v h, fun m l => ?_⟩
  induction l generalizing m with
  | nil => simp [Memory.runSeq, Memory.missCount]
  | cons i rest ih =>
      have hstep : ((m.resolve i).2.1).values.length = m.values.length + (m.resolve i).2.2 := by
        cases hi : lookup m.values i with
        | some w => simp [resolve_hit m i w hi]
        | none => simp [resolve_miss m i hi, length_insert_of_lookup_none _ _ _ hi]
      simp only [Memory.runSeq, Memory.missCount]
      rw [ih ((m.resolve i).2.1), hstep]
      omega

theorem resolve_hit_frame_witness :
    cprimed.resolve 2 = (4, cprimed, 0) ∧
      ((cdoubler.runSeq [2, 2, 3]).values).length =
        cdoubler.values.length + cdoubler.missCount [2, 2, 3] :=
  ⟨resolve_hit_frame.1 cprimed 2 4 (by decide), resolve_hit_frame.2 cdoubler [2, 2, 3]⟩

/-- C5: with an empty slot, `value` invokes the closure, stores the result
and returns it; with an occupied slot it returns the stored value without
invoking the closure; hence three consecutive calls return equal results. -/
theorem recall_value_behavior {S TOut : Type} :
    (∀ (r : Recall S TOut), r.value = none →
        r.value' = ((r.evaluator r.state).2,
          { r with state := (r.evaluator r.state).1,
                   value := some (r.evaluator r.state).2 }, 1)) ∧
    (∀ (r : Recall S TOut) (v : TOut), r.value = some v → r.value' = (v, r, 0)) ∧
    (∀ (r : Recall S TOut),
        (r.value').1 = (((r.value').2.1).value').1 ∧
        (((r.value').2.1).value').1 = (((((r.value').2.1).value').2.1).value').1) := by
  refine ⟨fun r h => by simp [Recall.value', h], fun r v h => value_of_occupied r v h, fun r => ?_⟩
  have h2 := value_of_occupied _ _ (slot_after_value r)
  rw [h2]
  have h3 := value_of_occupied _ _ (slot_after_value ((r.value').2.1))
  rw [h2] at h3
  rw [h3]
  exact ⟨rfl, rfl⟩

theorem recall_value_behavior_witness :
    cRecall.value' = ((cRecall.evaluator cRecall.state).2,
      { cRecall with state := (cRecall.evaluator cRecall.state).1,
                     value := some (cRecall.evaluator cRecall.state).2 }, 1) ∧
    cOccupied.value' = (42, cOccupied, 0) ∧
    ((cRecall.value').1 = (((cRecall.value').2.1).value').1 ∧
     (((cRecall.value').2.1).value').1 = (((((cRecall.value').2.1).value').2.1).value').1) :=
  ⟨recall_value_behavior.1 cRecall (by decide),
   recall_value_behavior.2.1 cOccupied 42 (by decide),
   recall_value_behavior.2.2 cRecall⟩

/-- C6: a failing closure propagates its failure; the cache and the slot
are exactly as before the call (only the closure state advances), so a
subsequent resolve with an equal key, or a subsequent value call,
re-invokes the closure. -/
theorem failure_not_cached {E S TIn TOut : Type} [DecidableEq TIn] :
    (∀ (m : MemoryE E S TIn TOut) (k : TIn) (e : E),
        lookup m.values k = none → (m.remember m.state k).2 = Except.error e →
        m.resolve k = (Except.error e, { m with state := (m.remember m.state k).1 }, 1) ∧
        ((m.resolve k).2.1).values = m.values ∧
        (((m.resolve k).2.1).resolve k).2.2 = 1) ∧
    (∀ (r : RecallE E S TOut) (e : E),
        r.value = none → (r.evaluator r.state).2 = Except.error e →
        r.value' = (Except.error e, { r with state := (r.evaluator r.state).1 }, 1) ∧
        ((r.value').2.1).value = none ∧
        (((r.value').2.1).value').2.2 = 1) := by
  constructor
  · intro m k e h he
    have h1 : m.resolve k = (Except.error e, { m with state := (m.remember m.state k).1 }, 1) := by
      simp [MemoryE.resolve, h, he]
    refine ⟨h1, by rw [h1], ?_⟩
    apply resolveE_count_of_miss
    rw [h1]
    exact h
  · intro r e h he
    have h1 : r.value' = (Except.error e, { r with state := (r.evaluator r.state).1 }, 1) := by
      simp [RecallE.value', h, he]
    refine ⟨h1, ?_, ?_⟩
    · rw [h1]
      exact h
    · apply valueE_count_of_empty
      rw [h1]
      exact h

theorem failure_not_cached_witness :
    (cMemE.resolve 2 = (Except.error (), { cMemE with state := (cMemE.remember cMemE.state 2).1 }, 1) ∧
      ((cMemE.resolve 2).2.1).values = cMemE.values ∧
      (((cMemE.resolve 2).2.1).resolve 2).2.2 = 1) ∧
    (cRecE.value' = (Except.error (), { cRecE with state := (cRecE.evaluator cRecE.state).1 }, 1) ∧
      ((cRecE.value').2.1).value = none ∧
      (((cRecE.value').2.1).value').2.2 = 1) :=
  ⟨(@failure_not_cached Unit Nat Nat Nat _).1 cMemE 2 () (by decide) rfl,
   (@failure_not_cached Unit Nat Nat Nat _).2 cRecE () (by decide) rfl⟩

/-- C7 counterexample: the claim quantifies over every `Memory` instance,
but for `cprimed`, whose cache already holds key 2, two consecutive
`resolve 2` calls invoke the closure zero times in total and leave the
captured invocation counter unchanged — not the amount of one
invocation. -/
theorem resolve_twice_counterexample :
    (cprimed.resolve 2).2.2 + (((cprimed.resolve 2).2.1).resolve 2).2.2 = 0 ∧
    ((((cprimed.resolve 2).2.1).resolve 2).2.1).state = cprimed.state ∧
    ¬ ((cprimed.resolve 2).2.2 + (((cprimed.resolve 2).2.1).resolve 2).2.2 = 1) := by
  refine ⟨by decide, by decide, by decide⟩

/-- C7 (amended): calling `resolve k` twice in a row yields equal outputs
and invokes the closure at most once in total — exactly once when `k` was
not initially cached, and zero times when it was already cached, in which
case the whole structure (closure state included) is unchanged. -/
theorem resolve_twice_amended {S TIn TOut : Type} [DecidableEq TIn]
    (m : Memory S TIn TOut) (k : TIn) :
    (m.resolve k).1 = (((m.resolve k).2.1).resolve k).1 ∧
    (m.resolve k).2.2 + (((m.resolve k).2.1).resolve k).2.2 ≤ 1 ∧
    (lookup m.values k = none →
      (m.resolve k).2.2 + (((m.resolve k).2.1).resolve k).2.2 = 1) ∧
    (∀ v : TOut, lookup m.values k = some v →
      (m.resolve k).2.2 + (((m.resolve k).2.1).resolve k).2.2 = 0 ∧
      (((m.resolve k).2.1).resolve k).2.1 = m) := by
  have h2 := resolve_hit _ k _ (lookup_after_resolve m k)
  refine ⟨by rw [h2], ?_, ?_, ?_⟩
  · rw [h2]
    cases h : lookup m.values k with
    | some v => simp [resolve_hit m k v h]
    | none => simp [resolve_miss m k h]
  · intro h
    rw [h2]
    simp [resolve_miss m k h]
  · intro v h
    simp [resolve_hit m k v h]

theorem resolve_twice_amended_witness :
    ((cdoubler.resolve 2).1 = (((cdoubler.resolve 2).2.1).resolve 2).1 ∧
     (cdoubler.resolve 2).2.2 + (((cdoubler.resolve 2).2.1).resolve 2).2.2 = 1) ∧
    ((cprimed.resolve 2).2.2 + (((cprimed.resolve 2).2.1).resolve 2).2.2 = 0 ∧
     (((cprimed.resolve 2).2.1).resolve 2).2.1 = cprimed) :=
  ⟨⟨(resolve_twice_amended cdoubler 2).1,
    (resolve_twice_amended cdoubler 2).2.2.1 (by decide)⟩,
   (resolve_twice_amended cprimed 2).2.2.2 4 (by decide)⟩

/-- C8: after resolving `k1`, a later `resolve k2` is a hit (zero closure
invocations) exactly when `k2` equals `k1` or `k2` was already cached;
equal keys share one entry, non-equal keys compute independently. -/
theorem hits_by_equality {S TIn TOut : Type} [DecidableEq TIn]
    (m : Memory S TIn TOut) (k1 k2 : TIn) :
    ((((m.resolve k1).2.1).resolve k2).2.2 = 0) ↔
      (k2 = k1 ∨ (lookup m.values k2).isSome) :=
  (resolve_count_eq_zero_iff ((m.resolve k1).2.1) k2).trans
    (lookup_after_resolve_cases m k1 k2)

/-- C9: on a miss the cache stores the result of that first invocation of
the (possibly stateful) closure, and every later `resolve` with an equal
key — after arbitrary intermediate resolves — returns that first result
rather than a freshly computed one. -/
theorem first_result_sticks {S TIn TOut : Type} [DecidableEq TIn]
    (m : Memory S TIn TOut) (k : TIn) (l : List TIn)
    (h : lookup m.values k = none) :
    (m.resolve k).1 = (m.remember m.state k).2 ∧
    ((((m.resolve k).2.1).runSeq l).resolve k).1 = (m.resolve k).1 := by
  constructor
  · simp [resolve_miss m k h]
  · have h1 := lookup_after_resolve m k
    have h2 := lookup_runSeq_preserved _ k _ l h1
    simp [resolve_hit _ k _ h2]

theorem first_result_sticks_witness :
    (cStateful.resolve 5).1 = (cStateful.remember cStateful.state 5).2 ∧
    ((((cStateful.resolve 5).2.1).runSeq [7, 5, 9]).resolve 5).1 = (cStateful.resolve 5).1 :=
  first_result_sticks cStateful 5 [7, 5, 9] (by decide)

/-- C10: both operations are deterministic functions of the instance
state and the input: equal starting states and equal inputs give equal
outputs, equal invocation counts, and equal resulting states. -/
theorem operations_deterministic {S TIn TOut : Type} [DecidableEq TIn] :
    (∀ (m1 m2 : Memory S TIn TOut) (k1 k2 : TIn), m1 = m2 → k1 = k2 →
        m1.resolve k1 = m2.resolve k2) ∧
    (∀ (r1 r2 : Recall S TOut), r1 = r2 → r1.value' = r2.value') :=
  ⟨fun m1 m2 k1 k2 hm hk => by rw [hm, hk], fun r1 r2 hr => by rw [hr]⟩

theorem operations_deterministic_witness :
    cdoubler.resolve 2 = cdoubler.resolve 2 ∧ cRecall.value' = cRecall.value' :=
  ⟨(@operations_deterministic Nat Nat Nat _).1 cdoubler cdoubler 2 2 rfl rfl,
   (@operations_deterministic Nat Nat Nat _).2 cRecall cRecall rfl⟩

end Souvenir
